import Mathlib

/- Verification of the DQN learning backend (DQN.py).

   A shallow embedding of the core of the source: the replay buffer and its
   ring semantics, the Double-DQN target construction of the training step,
   the soft target-network update, the episode-indexed exploration schedule,
   the lazy learner construction of the server loop, and the fixed-horizon
   episode tracker.  Real arithmetic of the source (Python floats / torch
   float32 tensors) is modelled over ℚ; the neural network forward pass and
   the Adam optimizer step are kept abstract as function parameters, since
   every claim below is independent of their numeric content. -/

namespace DQN

/-- One stored transition.  The source keeps five parallel numpy arrays
(`states`, `actions`, `rewards`, `next_states`, `dones`) all indexed by the
same slot index; we package the row at one index as a record.  `done` is
stored as a float (`self.dones[idx] = float(done)`), hence a rational. -/
structure Transition where
  state : List ℚ
  action : ℤ
  reward : ℚ
  next_state : List ℚ
  done : ℚ
deriving DecidableEq, Inhabited

/-- `ReplayBuffer.__init__(capacity, state_dim)`: arrays of `capacity` rows,
write cursor `pos = 0`, current `size = 0`.  The slot arrays are modelled as
one total function from slot index to row; rows not yet written hold the
zero-initialised placeholder `default`. -/
structure ReplayBuffer where
  capacity : ℕ
  state_dim : ℕ
  store : ℕ → Transition
  pos : ℕ
  size : ℕ

def ReplayBuffer.init (capacity state_dim : ℕ) : ReplayBuffer :=
  { capacity := capacity
    state_dim := state_dim
    store := fun _ => default
    pos := 0
    size := 0 }

/-- `ReplayBuffer.push`: write the row at `idx = self.pos`, then
`self.pos = (self.pos + 1) % self.capacity` and
`self.size = min(self.size + 1, self.capacity)`. -/
def ReplayBuffer.push (b : ReplayBuffer) (t : Transition) : ReplayBuffer :=
  { b with
    store := Function.update b.store b.pos t
    pos := (b.pos + 1) % b.capacity
    size := min (b.size + 1) b.capacity }

/-- Iterated `push` (left to right). -/
def ReplayBuffer.pushMany (b : ReplayBuffer) (ts : List Transition) : ReplayBuffer :=
  ts.foldl ReplayBuffer.push b

/-- The index drawing of `ReplayBuffer.sample`:
`idxs = np.random.randint(0, self.size, size=batch_size)` draws `batch_size`
indices from `[0, size)`.  The random source is modelled as a stream `rng`
of naturals; draw `i` is reduced modulo `size`, which is exactly the support
of `randint(0, size)`. -/
def ReplayBuffer.sampleIdxs (b : ReplayBuffer) (rng : ℕ → ℕ) (n : ℕ) : List ℕ :=
  (List.range n).map fun i => rng i % b.size

/-- `ReplayBuffer.sample`: gather the rows at the drawn indices. -/
def ReplayBuffer.sample (b : ReplayBuffer) (rng : ℕ → ℕ) (n : ℕ) : List Transition :=
  (b.sampleIdxs rng n).map b.store

/-- The stored transitions read oldest-first: when `size < capacity` the
oldest row is slot `0`; once full the oldest row is slot `pos`.  Both are
`(pos + capacity - size) % capacity`. -/
def ReplayBuffer.ringContents (b : ReplayBuffer) : List Transition :=
  (List.range b.size).map fun i => b.store ((b.pos + b.capacity - b.size + i) % b.capacity)

/-- `epsilon_by_episode` (episode-based schedule), translated clause by
clause from the source. -/
def epsilon_by_episode (episode_idx : ℤ) (eps_start : ℚ) (eps_min : ℚ)
    (decay_episodes : ℤ) : ℚ :=
  if episode_idx ≤ 1 then eps_start
  else if episode_idx ≥ decay_episodes then eps_min
  else
    let t : ℚ := ((episode_idx : ℚ) - 1) / ((decay_episodes : ℚ) - 1)
    max eps_min (eps_start + t * (eps_min - eps_start))

/-- `a = np.array(actions) / self.node_id_scale`: the normalised scalar
encoding of an action identifier fed to the network. -/
def normAction (scale : ℚ) (a : ℤ) : ℚ := (a : ℚ) / scale

/-- `torch.argmax` over one row: index of the first occurrence of the
maximal value. -/
def idxmax : List ℚ → ℕ
  | [] => 0
  | [_] => 0
  | x :: y :: xs =>
    let j := idxmax (y :: xs)
    if x < (y :: xs).getD j 0 then j + 1 else 0

/-- The `max_next_q` computation of `DqnLearner._train_step`
(lines 195–215): if the known-action set is empty, a zero per row;
otherwise enumerate `action_list = sorted(self.known_actions)`, normalise
it, evaluate the policy network on the `B × A` cross product (the
`view(B, A)` of the flattened batch is exactly one row of `A` evaluations
per next state), take the row-wise argmax under the policy network, and
gather the target network's evaluation at that argmax.  `qP` and `qT` are
the forward passes of the policy and target network at their current
parameters. -/
def maxNextQ (qP qT : List ℚ → ℚ → ℚ) (known : Finset ℤ) (scale : ℚ)
    (nextStates : List (List ℚ)) : List ℚ :=
  if known.card = 0 then nextStates.map fun _ => (0 : ℚ)
  else
    let action_list := known.sort (· ≤ ·)
    let actions_all := action_list.map fun a => (a : ℚ) / scale
    let q_all_policy := nextStates.map fun sn => actions_all.map (qP sn)
    let best_idx := q_all_policy.map idxmax
    let q_all_target := nextStates.map fun sn => actions_all.map (qT sn)
    List.zipWith (fun row b => row.getD b 0) q_all_target best_idx

/-- `targets = rewards + self.gamma * (1.0 - dones) * max_next_q`
(line 217), with `max_next_q` as above. -/
def computeTargets (qP qT : List ℚ → ℚ → ℚ) (known : Finset ℤ) (scale gamma : ℚ)
    (batch : List Transition) : List ℚ :=
  List.zipWith (fun t m => t.reward + gamma * (1 - t.done) * m) batch
    (maxNextQ qP qT known scale (batch.map Transition.next_state))

/-- `nn.MSELoss()` with its default mean reduction. -/
def mseLoss (pred target : List ℚ) : ℚ :=
  (List.zipWith (fun p t => (p - t) ^ 2) pred target).sum / pred.length

/-- The soft target update (lines 229–233):
`target_param.data.mul_(1.0 - tau).add_(tau * param.data)` elementwise over
the zipped parameter lists. -/
def softUpdate (tau : ℚ) (targetParams policyParams : List ℚ) : List ℚ :=
  List.zipWith (fun tp p => tp * (1 - tau) + tau * p) targetParams policyParams

/-- Sup norm of a parameter-difference vector, used to state the bounded
blend property. -/
def supNorm (l : List ℚ) : ℚ := l.foldr (fun x m => max |x| m) 0

/-- `DqnLearner` state.  The two networks are represented by their
parameter vectors θ (`policyParams`) and θ′ (`targetParams`); the network
forward pass and the Adam optimizer are abstracted as function parameters
of the operations below, since no claim depends on their numeric content
(`lr` lives inside the optimizer and is therefore not modelled). -/
structure DqnLearner where
  state_dim : ℕ
  gamma : ℚ
  batch_size : ℕ
  warmup : ℕ
  target_update_interval : ℕ
  policyParams : List ℚ
  targetParams : List ℚ
  replay : ReplayBuffer
  train_step_count : ℕ
  last_loss : Option ℚ
  known_actions : Finset ℤ
  node_id_scale : ℚ
  tau : ℚ

/-- `DqnLearner.__init__`: fresh replay buffer, empty known-action set,
`target_net.load_state_dict(policy_net.state_dict())` makes θ′ a copy of
the freshly initialised θ (`initParams`), `node_id_scale = 100.0`,
`tau = 0.005`. -/
def DqnLearner.init (state_dim : ℕ) (gamma : ℚ)
    (batch_size capacity warmup target_update_interval : ℕ)
    (initParams : List ℚ) : DqnLearner :=
  { state_dim := state_dim
    gamma := gamma
    batch_size := batch_size
    warmup := warmup
    target_update_interval := target_update_interval
    policyParams := initParams
    targetParams := initParams
    replay := ReplayBuffer.init capacity state_dim
    train_step_count := 0
    last_loss := none
    known_actions := ∅
    node_id_scale := 100
    tau := 5 / 1000 }

/-- `DqnLearner._train_step`: sample a batch, compute predictions and
Double-DQN targets, take the MSE loss, run the optimizer on θ (`opt`
abstracts `zero_grad`/`backward`/`clip_grad_norm_(…, 5.0)`/`optimizer.step`,
whose numeric effect is opaque to this embedding), bump the step counter,
record the loss, and soft-update θ′ from the freshly stepped θ.  `qEval`
is the network forward pass: parameters → state → normalised action → Q. -/
def DqnLearner.trainStep (qEval : List ℚ → List ℚ → ℚ → ℚ)
    (opt : List ℚ → List ℚ) (rng : ℕ → ℕ) (L : DqnLearner) : DqnLearner :=
  let batch := L.replay.sample rng L.batch_size
  let q_values := batch.map fun t =>
    qEval L.policyParams t.state (normAction L.node_id_scale t.action)
  let targets := computeTargets (qEval L.policyParams) (qEval L.targetParams)
    L.known_actions L.node_id_scale L.gamma batch
  let loss := mseLoss q_values targets
  let newPolicy := opt L.policyParams
  { L with
    policyParams := newPolicy
    train_step_count := L.train_step_count + 1
    last_loss := some loss
    targetParams := softUpdate L.tau L.targetParams newPolicy }

/-- `DqnLearner.observe` (lines 173–180): push the transition, add the
action to the known set, then train once iff the post-push buffer size has
reached the warmup threshold, returning the loss (`None` below warmup). -/
def DqnLearner.observe (qEval : List ℚ → List ℚ → ℚ → ℚ)
    (opt : List ℚ → List ℚ) (rng : ℕ → ℕ) (L : DqnLearner)
    (s : List ℚ) (a : ℤ) (r : ℚ) (s_next : List ℚ) (done : Bool) :
    DqnLearner × Option ℚ :=
  let L1 := { L with
    replay := L.replay.push ⟨s, a, r, s_next, if done then 1 else 0⟩
    known_actions := insert a L.known_actions }
  if L1.warmup ≤ L1.replay.size then
    let L2 := DqnLearner.trainStep qEval opt rng L1
    (L2, L2.last_loss)
  else (L1, none)

/-- Lazy learner construction in `main` when the first message fixing the
state dimensionality is an `action_request` (lines 364–373):
`warmup=1_000`. -/
def initLearnerOnActionRequest (state_dim : ℕ) (initParams : List ℚ) : DqnLearner :=
  DqnLearner.init state_dim (99/100) 64 100000 1000 1000 initParams

/-- Lazy learner construction in `main` when the first message fixing the
state dimensionality is a `transition` (lines 452–461): `warmup=500`. -/
def initLearnerOnTransition (state_dim : ℕ) (initParams : List ℚ) : DqnLearner :=
  DqnLearner.init state_dim (99/100) 64 100000 500 1000 initParams

/-- Numpy row assignment `self.states[idx] = s` into a row of shape `(D,)`:
succeeds verbatim when `len(s) = D`, silently broadcasts a length-1 array
across the row, and raises `ValueError: could not broadcast` otherwise. -/
def npSetRow (D : ℕ) (s : List ℚ) : Except String (List ℚ) :=
  if s.length = D then Except.ok s
  else if s.length = 1 then Except.ok (List.replicate D (s.getD 0 0))
  else Except.error "could not broadcast input array into buffer row"

/-- `ReplayBuffer.push` with the numpy assignment semantics made explicit:
the row writes of `states`/`next_states` can raise on a shape mismatch, and
that exception propagates out of `push`. -/
def ReplayBuffer.pushE (b : ReplayBuffer) (s : List ℚ) (a : ℤ) (r : ℚ)
    (s_next : List ℚ) (done : Bool) : Except String ReplayBuffer := do
  let row ← npSetRow b.state_dim s
  let rowNext ← npSetRow b.state_dim s_next
  pure (b.push ⟨row, a, r, rowNext, if done then 1 else 0⟩)

/-- `DqnLearner.observe` as called from `main`'s `transition` handler
(lines 440–472): `learner.observe(...)` sits inside no `try`/`except`
(only `json.loads`, `sendall` and `predict_q` are guarded there), so a
shape error raised by the buffer write propagates out of the message loop
and ends the session. -/
def DqnLearner.observeE (qEval : List ℚ → List ℚ → ℚ → ℚ)
    (opt : List ℚ → List ℚ) (rng : ℕ → ℕ) (L : DqnLearner)
    (s : List ℚ) (a : ℤ) (r : ℚ) (s_next : List ℚ) (done : Bool) :
    Except String (DqnLearner × Option ℚ) := do
  let rb ← L.replay.pushE s a r s_next done
  let L1 := { L with
    replay := rb
    known_actions := insert a L.known_actions }
  if L1.warmup ≤ rb.size then
    let L2 := DqnLearner.trainStep qEval opt rng L1
    pure (L2, L2.last_loss)
  else pure (L1, none)

/-- `MAX_STEPS_PER_EPISODE = 30`: the fixed pseudo-episode horizon of
`main`. -/
def MAX_STEPS_PER_EPISODE : ℕ := 30

/-- The per-transition inputs the episode tracker consumes: the message's
`reward`, the loss returned by `learner.observe` (`None` below warmup) and
the fresh prediction `q_est`. -/
structure StepInput where
  reward : ℚ
  loss_val : Option ℚ
  q_est : ℚ
deriving DecidableEq, Inhabited

/-- The per-episode aggregates emitted at an episode boundary
(lines 526–551). -/
structure EpisodeStats where
  ret : ℚ
  avg_reward : ℚ
  length : ℕ
  avg_q : ℚ
  avg_loss : ℚ
  random_rate : ℚ
deriving DecidableEq, Inhabited

/-- The episode bookkeeping of `main`: global step counter and the
per-episode accumulators. -/
structure SessionState where
  step_count : ℕ
  episode_idx : ℕ
  episode_step : ℕ
  episode_return : ℚ
  episode_q_sum : ℚ
  episode_q_count : ℕ
  episode_loss_sum : ℚ
  episode_loss_count : ℕ
  episode_random_count : ℕ
deriving DecidableEq, Inhabited

/-- `main`'s initial episode bookkeeping: `episode_idx = 1`, everything
else zero. -/
def sessionInit : SessionState :=
  { step_count := 0
    episode_idx := 1
    episode_step := 0
    episode_return := 0
    episode_q_sum := 0
    episode_q_count := 0
    episode_loss_sum := 0
    episode_loss_count := 0
    episode_random_count := 0 }

/-- One `transition` message through `main`'s episode bookkeeping
(lines 463–562, I/O elided): bump the global and episode step counters,
accumulate return/Q/loss, and when the episode step reaches the fixed
horizon (`done = episode_step >= MAX_STEPS_PER_EPISODE`, computed from the
step counter only — the message carries no environment done flag), emit the
aggregates, advance `episode_idx` and reset every accumulator. -/
def transitionStep (st : SessionState) (inp : StepInput) :
    SessionState × Option EpisodeStats :=
  let st1 := { st with
    step_count := st.step_count + 1
    episode_step := st.episode_step + 1
    episode_return := st.episode_return + inp.reward }
  let st2 := { st1 with
    episode_q_sum := st1.episode_q_sum + inp.q_est
    episode_q_count := st1.episode_q_count + 1 }
  let st3 := match inp.loss_val with
    | some l => { st2 with
        episode_loss_sum := st2.episode_loss_sum + l
        episode_loss_count := st2.episode_loss_count + 1 }
    | none => st2
  if MAX_STEPS_PER_EPISODE ≤ st3.episode_step then
    let stats : EpisodeStats :=
      { ret := st3.episode_return
        avg_reward := st3.episode_return / (max 1 st3.episode_step : ℕ)
        length := st3.episode_step
        avg_q := st3.episode_q_sum / (max 1 st3.episode_q_count : ℕ)
        avg_loss := if 0 < st3.episode_loss_count then
            st3.episode_loss_sum / (st3.episode_loss_count : ℚ) else 0
        random_rate := (st3.episode_random_count : ℚ) / (MAX_STEPS_PER_EPISODE : ℕ) }
    ({ st3 with
        episode_idx := st3.episode_idx + 1
        episode_step := 0
        episode_return := 0
        episode_q_sum := 0
        episode_q_count := 0
        episode_loss_sum := 0
        episode_loss_count := 0
        episode_random_count := 0 }, some stats)
  else (st3, none)

/-- A run of consecutive `transition` messages through the episode
bookkeeping, collecting the emitted per-episode aggregates in order. -/
def runSteps : SessionState → List StepInput → SessionState × List EpisodeStats
  | st, [] => (st, [])
  | st, inp :: rest =>
    let r := transitionStep st inp
    let k := runSteps r.1 rest
    (k.1, r.2.toList ++ k.2)

/-- C4: the claim reads the two boundary clauses as independent: `idx ≤ 1`
gives `eps_start` and `idx ≥ decay_episodes` gives `eps_min`.  The code
checks `idx ≤ 1` first, so at `idx = 1`, `decay_episodes = 1` it returns
`eps_start`, not `eps_min`, refuting the second clause as universally
stated. -/
theorem epsilon_clause_priority_counterexample :
    (1 : ℤ) ≥ (1 : ℤ) ∧ epsilon_by_episode 1 1 (1/10) 1 = 1 ∧ (1 : ℚ) ≠ 1/10 := by
  refine ⟨le_refl 1, ?_, by norm_num⟩
  simp [epsilon_by_episode]

/-- Branch-by-branch evaluation of the schedule, shared by the theorems
below. -/
theorem epsilon_branch_eval (episode_idx : ℤ) (eps_start eps_min : ℚ)
    (decay_episodes : ℤ) :
    (episode_idx ≤ 1 →
      epsilon_by_episode episode_idx eps_start eps_min decay_episodes = eps_start) ∧
    (1 < episode_idx → decay_episodes ≤ episode_idx →
      epsilon_by_episode episode_idx eps_start eps_min decay_episodes = eps_min) ∧
    (1 < episode_idx → episode_idx < decay_episodes →
      epsilon_by_episode episode_idx eps_start eps_min decay_episodes =
        max eps_min (eps_start +
          (((episode_idx : ℚ) - 1) / ((decay_episodes : ℚ) - 1)) * (eps_min - eps_start))) := by
  refine ⟨fun h => ?_, fun h1 h2 => ?_, fun h1 h2 => ?_⟩
  · simp [epsilon_by_episode, h]
  · simp [epsilon_by_episode, h1.not_le, h2]
  · simp [epsilon_by_episode, h1.not_le, h2.not_le]

/-- C4 (amended): `epsilon_by_episode` equals `eps_start` whenever
`episode_idx ≤ 1`; equals `eps_min` whenever `episode_idx ≥ decay_episodes`
and `episode_idx > 1` (the `≤ 1` branch takes priority); and otherwise
equals the linear interpolation
`eps_start + t·(eps_min − eps_start)` with `t = (idx − 1)/(decay − 1)`,
clamped below by `eps_min`. -/
theorem epsilon_by_episode_cases (episode_idx : ℤ) (eps_start eps_min : ℚ)
    (decay_episodes : ℤ) :
    (episode_idx ≤ 1 →
      epsilon_by_episode episode_idx eps_start eps_min decay_episodes = eps_start) ∧
    (1 < episode_idx → decay_episodes ≤ episode_idx →
      epsilon_by_episode episode_idx eps_start eps_min decay_episodes = eps_min) ∧
    (1 < episode_idx → episode_idx < decay_episodes →
      epsilon_by_episode episode_idx eps_start eps_min decay_episodes =
        max eps_min (eps_start +
          (((episode_idx : ℚ) - 1) / ((decay_episodes : ℚ) - 1)) * (eps_min - eps_start))) :=
  epsilon_branch_eval episode_idx eps_start eps_min decay_episodes

/-- C4 witness: the amended characterisation evaluated at concrete inputs. -/
theorem epsilon_by_episode_cases_witness :
    ((1 : ℤ) ≤ 1 ∧ epsilon_by_episode 1 1 (1/10) 2000 = 1) ∧
    ((1 : ℤ) < 2500 ∧ (2000 : ℤ) ≤ 2500 ∧ epsilon_by_episode 2500 1 (1/10) 2000 = 1/10) := by
  refine ⟨⟨le_refl 1, (epsilon_by_episode_cases 1 1 (1/10) 2000).1 (le_refl 1)⟩,
    ⟨by norm_num, by norm_num, (epsilon_by_episode_cases 2500 1 (1/10) 2000).2.1
      (by norm_num) (by norm_num)⟩⟩

/-- The schedule never goes below `eps_min` when `eps_min ≤ eps_start`. -/
theorem eps_min_le_epsilon (episode_idx : ℤ) (eps_start eps_min : ℚ)
    (decay_episodes : ℤ) (hes : eps_min ≤ eps_start) :
    eps_min ≤ epsilon_by_episode episode_idx eps_start eps_min decay_episodes := by
  unfold epsilon_by_episode
  split_ifs
  · exact hes
  · exact le_refl _
  · exact le_max_left _ _

/-- The schedule never exceeds `eps_start` when `eps_min ≤ eps_start`. -/
theorem epsilon_le_eps_start (episode_idx : ℤ) (eps_start eps_min : ℚ)
    (decay_episodes : ℤ) (hes : eps_min ≤ eps_start) :
    epsilon_by_episode episode_idx eps_start eps_min decay_episodes ≤ eps_start := by
  unfold epsilon_by_episode
  split_ifs with h1 h2
  · exact le_refl _
  · exact hes
  · have h2a : (2 : ℤ) ≤ episode_idx := by omega
    have h3 : (3 : ℤ) ≤ decay_episodes := by omega
    have htnum : (0 : ℚ) ≤ (episode_idx : ℚ) - 1 := by
      have : (1 : ℚ) ≤ (episode_idx : ℚ) := by exact_mod_cast (by omega : (1 : ℤ) ≤ episode_idx)
      linarith
    have htden : (0 : ℚ) < (decay_episodes : ℚ) - 1 := by
      have : (2 : ℚ) ≤ (decay_episodes : ℚ) := by
        exact_mod_cast (by omega : (2 : ℤ) ≤ decay_episodes)
      linarith
    have ht : (0 : ℚ) ≤ ((episode_idx : ℚ) - 1) / ((decay_episodes : ℚ) - 1) :=
      div_nonneg htnum (le_of_lt htden)
    refine max_le hes ?_
    have : ((episode_idx : ℚ) - 1) / ((decay_episodes : ℚ) - 1) * (eps_min - eps_start) ≤ 0 :=
      mul_nonpos_of_nonneg_of_nonpos ht (by linarith)
    linarith

/-- C9: for `eps_min < eps_start` the schedule is monotonically
non-increasing in the episode index. -/
theorem epsilon_by_episode_antitone (eps_start eps_min : ℚ) (decay_episodes i j : ℤ)
    (hes : eps_min < eps_start) (hij : i ≤ j) :
    epsilon_by_episode j eps_start eps_min decay_episodes ≤
      epsilon_by_episode i eps_start eps_min decay_episodes := by
  by_cases hj1 : j ≤ 1
  · have hi1 : i ≤ 1 := le_trans hij hj1
    rw [(epsilon_branch_eval j eps_start eps_min decay_episodes).1 hj1,
      (epsilon_branch_eval i eps_start eps_min decay_episodes).1 hi1]
  · by_cases hjd : decay_episodes ≤ j
    · rw [(epsilon_branch_eval j eps_start eps_min decay_episodes).2.1
        (by omega) hjd]
      exact eps_min_le_epsilon i eps_start eps_min decay_episodes (le_of_lt hes)
    · -- 1 < j < decay_episodes
      by_cases hi1 : i ≤ 1
      · rw [(epsilon_branch_eval i eps_start eps_min decay_episodes).1 hi1]
        exact epsilon_le_eps_start j eps_start eps_min decay_episodes (le_of_lt hes)
      · -- both interior
        rw [(epsilon_branch_eval j eps_start eps_min decay_episodes).2.2
          (by omega) (by omega),
          (epsilon_branch_eval i eps_start eps_min decay_episodes).2.2
          (by omega) (by omega)]
        have hd : (0 : ℚ) < (decay_episodes : ℚ) - 1 := by
          have : (2 : ℚ) ≤ (decay_episodes : ℚ) := by
            exact_mod_cast (by omega : (2 : ℤ) ≤ decay_episodes)
          linarith
        have hijq : ((i : ℚ) - 1) ≤ ((j : ℚ) - 1) := by
          have : (i : ℚ) ≤ (j : ℚ) := by exact_mod_cast hij
          linarith
        have hinv : (0 : ℚ) ≤ ((decay_episodes : ℚ) - 1)⁻¹ := inv_nonneg.mpr (le_of_lt hd)
        have htle : ((i : ℚ) - 1) / ((decay_episodes : ℚ) - 1) ≤
            ((j : ℚ) - 1) / ((decay_episodes : ℚ) - 1) := by
          rw [div_eq_mul_inv, div_eq_mul_inv]
          exact mul_le_mul_of_nonneg_right hijq hinv
        have hmul : ((j : ℚ) - 1) / ((decay_episodes : ℚ) - 1) * (eps_min - eps_start) ≤
            ((i : ℚ) - 1) / ((decay_episodes : ℚ) - 1) * (eps_min - eps_start) :=
          mul_le_mul_of_nonpos_right htle (by linarith)
        exact max_le_max (le_refl eps_min) (by linarith)

/-- C9 witness: monotonicity applied at concrete inputs. -/
theorem epsilon_by_episode_antitone_witness :
    (1 : ℚ)/10 < 1 ∧ (3 : ℤ) ≤ 7 ∧
      epsilon_by_episode 7 1 (1/10) 2000 ≤ epsilon_by_episode 3 1 (1/10) 2000 := by
  exact ⟨by norm_num, by norm_num,
    epsilon_by_episode_antitone 1 (1/10) 2000 3 7 (by norm_num) (by norm_num)⟩

/-- C10: the warmup threshold of the lazily created learner depends on
which message type triggers its creation: `action_request` gives 1000,
`transition` gives 500 — a factor of two. -/
theorem warmup_depends_on_creating_message (d : ℕ) (p : List ℚ) :
    (initLearnerOnActionRequest d p).warmup = 1000 ∧
    (initLearnerOnTransition d p).warmup = 500 ∧
    (initLearnerOnActionRequest d p).warmup = 2 * (initLearnerOnTransition d p).warmup :=
  ⟨rfl, rfl, rfl⟩

/-- C7: with a non-empty buffer, `sample(n)` draws exactly `n` indices and
every drawn index is in `[0, size)` — never an uninitialised slot. -/
theorem sample_indices_in_range (b : ReplayBuffer) (rng : ℕ → ℕ) (n : ℕ)
    (hpos : 0 < b.size) :
    (b.sampleIdxs rng n).length = n ∧ ∀ j ∈ b.sampleIdxs rng n, j < b.size := by
  constructor
  · simp [ReplayBuffer.sampleIdxs]
  · intro j hj
    simp only [ReplayBuffer.sampleIdxs, List.mem_map, List.mem_range] at hj
    obtain ⟨i, _, hji⟩ := hj
    rw [← hji]
    exact Nat.mod_lt _ hpos

/-- C7 witness: a buffer holding one transition, four draws. -/
theorem sample_indices_in_range_witness :
    0 < ((ReplayBuffer.init 5 1).push default).size ∧
    ((((ReplayBuffer.init 5 1).push default).sampleIdxs (fun i => i + 3) 4).length = 4 ∧
      ∀ j ∈ ((ReplayBuffer.init 5 1).push default).sampleIdxs (fun i => i + 3) 4,
        j < ((ReplayBuffer.init 5 1).push default).size) :=
  ⟨by decide, sample_indices_in_range _ _ 4 (by decide)⟩

/-- C6: the code does not reject a state vector of the wrong
dimensionality; the numpy row assignment inside `ReplayBuffer.push` raises,
`learner.observe` is not guarded by any `try` in `main`'s transition
handler, and the exception ends the session.  Concretely: with `D = 3`
fixed, a transition carrying a length-2 state makes `observe` raise. -/
theorem shape_mismatch_raises_uncaught :
    DqnLearner.observeE (fun _ _ _ => 0) id (fun _ => 0)
      (initLearnerOnTransition 3 [0]) [1, 2] 7 (1/2) [1, 2, 3] false =
      Except.error "could not broadcast input array into buffer row" := rfl

/-- C2: `observe` pushes the transition and records the action
unconditionally; below the warmup threshold it returns `none` and performs
no training step, otherwise it performs exactly one training step and
returns the scalar loss. -/
theorem observe_push_then_warmup_gate (qEval : List ℚ → List ℚ → ℚ → ℚ)
    (opt : List ℚ → List ℚ) (rng : ℕ → ℕ) (L : DqnLearner)
    (s : List ℚ) (a : ℤ) (r : ℚ) (s_next : List ℚ) (done : Bool) :
    (DqnLearner.observe qEval opt rng L s a r s_next done).1.replay =
        L.replay.push ⟨s, a, r, s_next, if done then 1 else 0⟩ ∧
    (DqnLearner.observe qEval opt rng L s a r s_next done).1.known_actions =
        insert a L.known_actions ∧
    ((DqnLearner.observe qEval opt rng L s a r s_next done).2 = none ↔
        (L.replay.push ⟨s, a, r, s_next, if done then 1 else 0⟩).size < L.warmup) ∧
    ((L.replay.push ⟨s, a, r, s_next, if done then 1 else 0⟩).size < L.warmup →
        (DqnLearner.observe qEval opt rng L s a r s_next done).1.train_step_count =
          L.train_step_count) ∧
    (L.warmup ≤ (L.replay.push ⟨s, a, r, s_next, if done then 1 else 0⟩).size →
        (DqnLearner.observe qEval opt rng L s a r s_next done).1.train_step_count =
          L.train_step_count + 1 ∧
        (DqnLearner.observe qEval opt rng L s a r s_next done).2 =
          (DqnLearner.observe qEval opt rng L s a r s_next done).1.last_loss ∧
        ((DqnLearner.observe qEval opt rng L s a r s_next done).2).isSome) := by
  by_cases h : L.warmup ≤ (L.replay.push ⟨s, a, r, s_next, if done then 1 else 0⟩).size
  · refine ⟨?_, ?_, ?_, ?_, ?_⟩ <;>
      simp [DqnLearner.observe, DqnLearner.trainStep, h] <;> omega
  · refine ⟨?_, ?_, ?_, ?_, ?_⟩ <;>
      simp [DqnLearner.observe, DqnLearner.trainStep, h] <;> omega

/-- C2 witness: a learner whose warmup is already met trains once and
returns the loss. -/
theorem observe_push_then_warmup_gate_witness :
    (DqnLearner.init 1 (99/100) 2 4 0 1 [1]).warmup ≤
      ((DqnLearner.init 1 (99/100) 2 4 0 1 [1]).replay.push
        ⟨[3], 2, 5, [4], if false then 1 else 0⟩).size ∧
    ((DqnLearner.observe (fun _ _ _ => 0) id (fun _ => 0)
        (DqnLearner.init 1 (99/100) 2 4 0 1 [1]) [3] 2 5 [4] false).2).isSome :=
  ⟨by decide,
    ((observe_push_then_warmup_gate (fun _ _ _ => 0) id (fun _ => 0)
      (DqnLearner.init 1 (99/100) 2 4 0 1 [1]) [3] 2 5 [4] false).2.2.2.2
      (by decide)).2.2⟩

/-- Every member of a list is bounded in magnitude by the list's sup
norm. -/
theorem abs_le_supNorm (l : List ℚ) (x : ℚ) (hx : x ∈ l) : |x| ≤ supNorm l := by
  induction l with
  | nil => cases hx
  | cons y ys ih =>
    simp only [supNorm, List.foldr_cons]
    rcases List.mem_cons.mp hx with h | h
    · rw [h]
      exact le_max_left _ _
    · exact le_trans (ih h) (le_max_right _ _)

/-- C5: after a completed training step, each element of θ′ is exactly
`(1−τ)·θ′ + τ·θ` with `τ = 0.005` (θ being the freshly stepped policy
parameters `opt L.policyParams`), so it moves by exactly `τ·(θ − θ′)`,
which is bounded in magnitude by `τ·‖θ − θ′‖`. -/
theorem soft_target_update_bounded (qEval : List ℚ → List ℚ → ℚ → ℚ)
    (opt : List ℚ → List ℚ) (rng : ℕ → ℕ) (L : DqnLearner) (i : ℕ)
    (htau : L.tau = 5/1000)
    (hlen : (opt L.policyParams).length = L.targetParams.length)
    (hi : i < L.targetParams.length) :
    (DqnLearner.trainStep qEval opt rng L).targetParams.getD i 0 =
      (1 - 5/1000) * L.targetParams.getD i 0 +
        (5/1000) * (opt L.policyParams).getD i 0 ∧
    (DqnLearner.trainStep qEval opt rng L).targetParams.getD i 0 -
        L.targetParams.getD i 0 =
      (5/1000) * ((opt L.policyParams).getD i 0 - L.targetParams.getD i 0) ∧
    |(DqnLearner.trainStep qEval opt rng L).targetParams.getD i 0 -
        L.targetParams.getD i 0| ≤
      (5/1000) * supNorm (List.zipWith (fun x y => x - y)
        (opt L.policyParams) L.targetParams) := by
  have hzlen : (List.zipWith (fun tp p => tp * (1 - L.tau) + L.tau * p)
      L.targetParams (opt L.policyParams)).length = L.targetParams.length := by
    simp [List.length_zipWith, hlen]
  have hstep : (DqnLearner.trainStep qEval opt rng L).targetParams =
      List.zipWith (fun tp p => tp * (1 - L.tau) + L.tau * p)
        L.targetParams (opt L.policyParams) := rfl
  have hi2 : i < (opt L.policyParams).length := by omega
  have hget : (DqnLearner.trainStep qEval opt rng L).targetParams.getD i 0 =
      L.targetParams[i] * (1 - L.tau) + L.tau * (opt L.policyParams)[i] := by
    rw [hstep, List.getD_eq_getElem _ _ (by omega), List.getElem_zipWith]
  have hgetT : L.targetParams.getD i 0 = L.targetParams[i] :=
    List.getD_eq_getElem _ _ hi
  have hgetP : (opt L.policyParams).getD i 0 = (opt L.policyParams)[i] :=
    List.getD_eq_getElem _ _ hi2
  refine ⟨?_, ?_, ?_⟩
  · rw [hget, hgetT, hgetP, htau]; ring
  · rw [hget, hgetT, hgetP, htau]; ring
  · have hdelta : (DqnLearner.trainStep qEval opt rng L).targetParams.getD i 0 -
        L.targetParams.getD i 0 =
        (5/1000) * ((opt L.policyParams)[i] - L.targetParams[i]) := by
      rw [hget, hgetT, htau]; ring
    rw [hdelta, abs_mul, abs_of_nonneg (by norm_num : (0:ℚ) ≤ 5/1000)]
    have hmem : (opt L.policyParams)[i] - L.targetParams[i] ∈
        List.zipWith (fun x y => x - y) (opt L.policyParams) L.targetParams := by
      have hlt : i < (List.zipWith (fun x y => x - y) (opt L.policyParams)
          L.targetParams).length := by
        simp only [List.length_zipWith]
        omega
      have : (List.zipWith (fun x y => x - y) (opt L.policyParams)
          L.targetParams)[i] =
          (opt L.policyParams)[i] - L.targetParams[i] := List.getElem_zipWith
      rw [← this]
      exact List.getElem_mem _
    have := abs_le_supNorm _ _ hmem
    nlinarith [this, abs_nonneg ((opt L.policyParams)[i] - L.targetParams[i])]

/-- C5 witness: one-element parameter vectors, identity optimizer step. -/
theorem soft_target_update_bounded_witness :
    (DqnLearner.init 1 (99/100) 2 4 0 1 [2]).tau = 5/1000 ∧
    ((fun l : List ℚ => l.map (fun x => x + 1))
        (DqnLearner.init 1 (99/100) 2 4 0 1 [2]).policyParams).length =
      (DqnLearner.init 1 (99/100) 2 4 0 1 [2]).targetParams.length ∧
    (DqnLearner.trainStep (fun _ _ _ => 0) (fun l : List ℚ => l.map (fun x => x + 1))
        (fun _ => 0) (DqnLearner.init 1 (99/100) 2 4 0 1 [2])).targetParams.getD 0 0 -
      (DqnLearner.init 1 (99/100) 2 4 0 1 [2]).targetParams.getD 0 0 =
      (5/1000) * (((fun l : List ℚ => l.map (fun x => x + 1))
          (DqnLearner.init 1 (99/100) 2 4 0 1 [2]).policyParams).getD 0 0 -
        (DqnLearner.init 1 (99/100) 2 4 0 1 [2]).targetParams.getD 0 0) :=
  ⟨rfl, by decide,
    (soft_target_update_bounded (fun _ _ _ => 0) (fun l : List ℚ => l.map (fun x => x + 1))
      (fun _ => 0) (DqnLearner.init 1 (99/100) 2 4 0 1 [2]) 0 rfl (by decide)
      (by decide)).2.1⟩

/-- `max_next_q` has one entry per sampled next state. -/
theorem maxNextQ_length (qP qT : List ℚ → ℚ → ℚ) (known : Finset ℤ) (scale : ℚ)
    (nextStates : List (List ℚ)) :
    (maxNextQ qP qT known scale nextStates).length = nextStates.length := by
  unfold maxNextQ
  split_ifs
  · simp
  · simp [List.length_zipWith]

/-- Row `i` of `max_next_q`: the target network evaluated at the action the
policy network argmaxes over the sorted known-action list. -/
theorem maxNextQ_getD (qP qT : List ℚ → ℚ → ℚ) (known : Finset ℤ) (scale : ℚ)
    (nextStates : List (List ℚ)) (i : ℕ)
    (hcard : known.card ≠ 0) (hi : i < nextStates.length) :
    (maxNextQ qP qT known scale nextStates).getD i 0 =
      ((known.sort (· ≤ ·)).map (fun a => qT nextStates[i] ((a : ℚ) / scale))).getD
        (idxmax ((known.sort (· ≤ ·)).map
          (fun a => qP nextStates[i] ((a : ℚ) / scale)))) 0 := by
  simp only [maxNextQ, if_neg hcard]
  rw [List.getD_eq_getElem _ _ (by simp [List.length_zipWith]; omega)]
  rw [List.getElem_zipWith]
  simp only [List.getElem_map, List.map_map]
  rfl

/-- C1: for every transition of the batch, the training target is
`r + γ·(1−done)·max_next_Q` where `max_next_Q` evaluates the target
network at the per-row argmax action selected by the policy network over
the sorted known-action list; in particular `done = 1` leaves the reward
alone. -/
theorem double_dqn_target (qP qT : List ℚ → ℚ → ℚ) (known : Finset ℤ)
    (scale gamma : ℚ) (batch : List Transition) (i : ℕ)
    (hi : i < batch.length) (hne : known.Nonempty) :
    (computeTargets qP qT known scale gamma batch).getD i 0 =
      (batch.getD i default).reward +
        gamma * (1 - (batch.getD i default).done) *
        (((known.sort (· ≤ ·)).map
            (fun a => qT (batch.getD i default).next_state ((a : ℚ) / scale))).getD
          (idxmax ((known.sort (· ≤ ·)).map
            (fun a => qP (batch.getD i default).next_state ((a : ℚ) / scale)))) 0) ∧
    ((batch.getD i default).done = 1 →
      (computeTargets qP qT known scale gamma batch).getD i 0 =
        (batch.getD i default).reward) := by
  have hcard : known.card ≠ 0 := by
    have := Finset.card_pos.mpr hne
    omega
  have himap : i < (batch.map Transition.next_state).length := by
    simpa using hi
  have hlenz : i < (List.zipWith (fun t m => t.reward + gamma * (1 - t.done) * m) batch
      (maxNextQ qP qT known scale (batch.map Transition.next_state))).length := by
    rw [List.length_zipWith, maxNextQ_length]
    simpa using hi
  have h1 : (computeTargets qP qT known scale gamma batch).getD i 0 =
      batch[i].reward + gamma * (1 - batch[i].done) *
        (maxNextQ qP qT known scale (batch.map Transition.next_state)).getD i 0 := by
    unfold computeTargets
    rw [List.getD_eq_getElem _ _ hlenz, List.getElem_zipWith,
      List.getD_eq_getElem _ _ (by rw [maxNextQ_length]; simpa using hi)]
  have h2 := maxNextQ_getD qP qT known scale (batch.map Transition.next_state) i hcard himap
  have h3 : (batch.map Transition.next_state)[i] = batch[i].next_state := by
    simp
  have h4 : batch.getD i default = batch[i] := List.getD_eq_getElem _ _ hi
  constructor
  · rw [h1, h2, h3, h4]
  · intro hd
    rw [h4] at hd
    rw [h1, h2, h3, h4, hd]
    ring

/-- C1 witness: a one-transition batch with `done = 1` gets its reward as
target. -/
theorem double_dqn_target_witness :
    0 < ([(⟨[1], 3, 5, [2], 1⟩ : Transition)] : List Transition).length ∧
    ({2} : Finset ℤ).Nonempty ∧
    (computeTargets (fun _ a => a) (fun _ a => a + 1) ({2} : Finset ℤ) 100 (99/100)
      [⟨[1], 3, 5, [2], 1⟩]).getD 0 0 = 5 :=
  ⟨by decide, by decide,
    (double_dqn_target (fun _ a => a) (fun _ a => a + 1) ({2} : Finset ℤ) 100 (99/100)
      [⟨[1], 3, 5, [2], 1⟩] 0 (by decide) (by decide)).2 (by decide)⟩

/-- Invariant of iterated pushes into a fresh buffer: the cursor is the
push count modulo the capacity, the size saturates at the capacity, and
the last `min count C` pushes live at their natural slots `m % C` (each
later push having overwritten the slot of the push `C` before it). -/
theorem pushMany_invariant (C d : ℕ) (ts : List Transition) (hC : 0 < C) :
    (ReplayBuffer.pushMany (ReplayBuffer.init C d) ts).capacity = C ∧
    (ReplayBuffer.pushMany (ReplayBuffer.init C d) ts).pos = ts.length % C ∧
    (ReplayBuffer.pushMany (ReplayBuffer.init C d) ts).size = min ts.length C ∧
    ∀ m : ℕ, m < ts.length → ts.length ≤ m + C →
      (ReplayBuffer.pushMany (ReplayBuffer.init C d) ts).store (m % C) =
        ts.getD m default := by
  induction ts using List.reverseRecOn with
  | nil =>
    refine ⟨rfl, by simp [ReplayBuffer.pushMany, ReplayBuffer.init], by
      simp [ReplayBuffer.pushMany, ReplayBuffer.init], fun m hm _ => absurd hm (by simp)⟩
  | append_singleton ts t ih =>
    obtain ⟨ihcap, ihpos, ihsize, ihstore⟩ := ih
    have hfold : ReplayBuffer.pushMany (ReplayBuffer.init C d) (ts ++ [t]) =
        ReplayBuffer.push (ReplayBuffer.pushMany (ReplayBuffer.init C d) ts) t := by
      simp [ReplayBuffer.pushMany, List.foldl_append]
    refine ⟨?_, ?_, ?_, ?_⟩
    · rw [hfold]
      simpa [ReplayBuffer.push] using ihcap
    · rw [hfold]
      simp only [ReplayBuffer.push, ihpos, ihcap, List.length_append,
        List.length_singleton]
      exact Nat.mod_add_mod ts.length C 1
    · rw [hfold]
      simp only [ReplayBuffer.push, ihsize, ihcap, List.length_append,
        List.length_singleton]
      omega
    · intro m hm hup
      rw [hfold]
      simp only [ReplayBuffer.push, ihpos, List.length_append,
        List.length_singleton] at hm hup ⊢
      rcases Nat.lt_succ_iff_lt_or_eq.mp hm with hmlt | hmeq
      · -- an older push whose slot the new write does not touch
        have hne : m % C ≠ ts.length % C := by
          intro heq
          have hdev : C ∣ ts.length - m :=
            (Nat.modEq_iff_dvd' (le_of_lt hmlt)).mp heq
          have h1 : 0 < ts.length - m := by omega
          have h2 : ts.length - m < C := by omega
          exact absurd (Nat.le_of_dvd h1 hdev) (by omega)
        rw [Function.update_noteq hne]
        rw [ihstore m hmlt (by omega)]
        rw [List.getD_append _ _ _ _ hmlt]
      · -- the newest push sits at its own slot
        subst hmeq
        rw [Function.update_same]
        rw [List.getD_append_right _ _ _ _ (le_refl _)]
        simp

/-- After any sequence of pushes into a fresh buffer, reading the buffer
oldest-first gives exactly the last `capacity` pushes (all of them while
below capacity). -/
theorem pushMany_ringContents (C d : ℕ) (ts : List Transition) (hC : 0 < C) :
    (ReplayBuffer.pushMany (ReplayBuffer.init C d) ts).ringContents =
      ts.drop (ts.length - C) := by
  obtain ⟨hcap, hpos, hsize, hstore⟩ := pushMany_invariant C d ts hC
  apply List.ext_getElem
  · simp only [ReplayBuffer.ringContents, List.length_map, List.length_range,
      hsize, List.length_drop]
    omega
  · intro i h1 h2
    simp only [ReplayBuffer.ringContents, List.getElem_map, List.getElem_range]
    have hiz : i < min ts.length C := by
      simpa [ReplayBuffer.ringContents, hsize] using h1
    rw [hpos, hcap, hsize]
    have e1 : (ts.length % C + C - min ts.length C + i) + C * (ts.length / C) =
        (ts.length - min ts.length C + i) + C := by
      have := Nat.mod_add_div ts.length C
      omega
    have harg : (ts.length % C + C - min ts.length C + i) % C =
        (ts.length - min ts.length C + i) % C := by
      calc (ts.length % C + C - min ts.length C + i) % C
          = ((ts.length % C + C - min ts.length C + i) + C * (ts.length / C)) % C :=
            (Nat.add_mul_mod_self_left _ _ _).symm
        _ = ((ts.length - min ts.length C + i) + C) % C := by rw [e1]
        _ = (ts.length - min ts.length C + i) % C := Nat.add_mod_right _ _
    have hm1 : ts.length - min ts.length C + i < ts.length := by omega
    have hm2 : ts.length ≤ ts.length - min ts.length C + i + C := by omega
    rw [harg, hstore (ts.length - min ts.length C + i) hm1 hm2,
      List.getD_eq_getElem _ _ hm1, List.getElem_drop]
    have hidx : ts.length - C + i = ts.length - min ts.length C + i := by omega
    simp only [hidx]

/-- C3: pushes always succeed and saturate `size` at the capacity `C`;
once `C` is exceeded the buffer holds exactly the last `C` pushes, and each
further push drops the oldest stored entry and appends the new one (ring
semantics). -/
theorem replay_ring_semantics (C d : ℕ) (ts : List Transition) (hC : 0 < C) :
    (ReplayBuffer.pushMany (ReplayBuffer.init C d) ts).size = min ts.length C ∧
    (ReplayBuffer.pushMany (ReplayBuffer.init C d) ts).size ≤ C ∧
    (ReplayBuffer.pushMany (ReplayBuffer.init C d) ts).ringContents =
      ts.drop (ts.length - C) ∧
    (C ≤ ts.length → ∀ t : Transition,
      (ReplayBuffer.pushMany (ReplayBuffer.init C d) (ts ++ [t])).ringContents =
        ((ReplayBuffer.pushMany (ReplayBuffer.init C d) ts).ringContents).tail ++ [t]) := by
  obtain ⟨-, -, hsize, -⟩ := pushMany_invariant C d ts hC
  refine ⟨hsize, by omega, pushMany_ringContents C d ts hC, ?_⟩
  intro hCle t
  rw [pushMany_ringContents C d (ts ++ [t]) hC, pushMany_ringContents C d ts hC,
    List.length_append, List.length_singleton, List.tail_drop]
  have h1 : ts.length + 1 - C = ts.length - C + 1 := by omega
  rw [h1, List.drop_append_of_le_length (by omega)]

/-- C3 witness: capacity 2, three pushes — the first push has been
overwritten and the buffer reads as the last two. -/
theorem replay_ring_semantics_witness :
    0 < 2 ∧
    (ReplayBuffer.pushMany (ReplayBuffer.init 2 1)
        [⟨[1], 1, 1, [1], 0⟩, ⟨[2], 2, 2, [2], 0⟩, ⟨[3], 3, 3, [3], 0⟩]).ringContents =
      ([⟨[1], 1, 1, [1], 0⟩, ⟨[2], 2, 2, [2], 0⟩, ⟨[3], 3, 3, [3], 0⟩] :
          List Transition).drop
        (([⟨[1], 1, 1, [1], 0⟩, ⟨[2], 2, 2, [2], 0⟩, ⟨[3], 3, 3, [3], 0⟩] :
          List Transition).length - 2) :=
  ⟨by decide, (replay_ring_semantics 2 1 _ (by decide)).2.2.1⟩

/-- Below the horizon a transition message emits nothing and advances the
episode step. -/
theorem transitionStep_no_emit (st : SessionState) (inp : StepInput)
    (h : st.episode_step + 1 < MAX_STEPS_PER_EPISODE) :
    (transitionStep st inp).2 = none ∧
    (transitionStep st inp).1.episode_step = st.episode_step + 1 ∧
    (transitionStep st inp).1.episode_idx = st.episode_idx := by
  have hcond : ¬ MAX_STEPS_PER_EPISODE ≤ st.episode_step + 1 := by omega
  rcases hl : inp.loss_val with _ | l <;> simp [transitionStep, hl, hcond]

/-- At the horizon a transition message emits the aggregates (with the
episode length equal to the step count) and resets every accumulator. -/
theorem transitionStep_emit (st : SessionState) (inp : StepInput)
    (h : MAX_STEPS_PER_EPISODE ≤ st.episode_step + 1) :
    ((transitionStep st inp).2).isSome ∧
    (∀ e, (transitionStep st inp).2 = some e → e.length = st.episode_step + 1) ∧
    (transitionStep st inp).1.episode_idx = st.episode_idx + 1 ∧
    (transitionStep st inp).1.episode_step = 0 ∧
    (transitionStep st inp).1.episode_return = 0 ∧
    (transitionStep st inp).1.episode_q_sum = 0 ∧
    (transitionStep st inp).1.episode_q_count = 0 ∧
    (transitionStep st inp).1.episode_loss_sum = 0 ∧
    (transitionStep st inp).1.episode_loss_count = 0 ∧
    (transitionStep st inp).1.episode_random_count = 0 := by
  rcases hl : inp.loss_val with _ | l <;>
    simp [transitionStep, hl, h] <;>
    (intro e he; rw [← he])

/-- Driving the tracker from any point of an episode up to exactly the
horizon emits exactly one aggregate record, of length equal to the
horizon, and leaves the accumulators reset with the episode counter
bumped once. -/
theorem runSteps_completes_episode (inputs : List StepInput) (st : SessionState)
    (hne : inputs ≠ [])
    (h : st.episode_step + inputs.length = MAX_STEPS_PER_EPISODE) :
    ((runSteps st inputs).2).length = 1 ∧
    (∀ e ∈ (runSteps st inputs).2, e.length = MAX_STEPS_PER_EPISODE) ∧
    (runSteps st inputs).1.episode_idx = st.episode_idx + 1 ∧
    (runSteps st inputs).1.episode_step = 0 ∧
    (runSteps st inputs).1.episode_return = 0 ∧
    (runSteps st inputs).1.episode_q_sum = 0 ∧
    (runSteps st inputs).1.episode_q_count = 0 ∧
    (runSteps st inputs).1.episode_loss_sum = 0 ∧
    (runSteps st inputs).1.episode_loss_count = 0 ∧
    (runSteps st inputs).1.episode_random_count = 0 := by
  induction inputs generalizing st with
  | nil => exact absurd rfl hne
  | cons inp rest ih =>
    rcases eq_or_ne rest [] with hrest | hrest
    · subst hrest
      have hcond : MAX_STEPS_PER_EPISODE ≤ st.episode_step + 1 := by
        simp at h
        omega
      obtain ⟨hsome, hlen, hidx, h1, h2, h3, h4, h5, h6, h7⟩ :=
        transitionStep_emit st inp hcond
      obtain ⟨e, he⟩ := Option.isSome_iff_exists.mp hsome
      have hrun : runSteps st [inp] =
          ((transitionStep st inp).1, (transitionStep st inp).2.toList) := by
        simp [runSteps]
      have hstep30 : st.episode_step + 1 = MAX_STEPS_PER_EPISODE := by
        simp at h
        omega
      refine ⟨?_, ?_, ?_, ?_, ?_, ?_, ?_, ?_, ?_, ?_⟩ <;> rw [hrun]
      · simp [he]
      · intro x hx
        simp [he] at hx
        rw [hx, hlen e he, hstep30]
      · exact hidx
      · exact h1
      · exact h2
      · exact h3
      · exact h4
      · exact h5
      · exact h6
      · exact h7
    · have hcond : st.episode_step + 1 < MAX_STEPS_PER_EPISODE := by
        have := List.length_pos.mpr hrest
        simp at h
        omega
      obtain ⟨hnone, hstep, hidx⟩ := transitionStep_no_emit st inp hcond
      have ih2 := ih (transitionStep st inp).1 hrest (by
        rw [hstep]
        simp at h
        omega)
      obtain ⟨i1, i2, i3, i4, i5, i6, i7, i8, i9, i10⟩ := ih2
      have hfst : (runSteps st (inp :: rest)).1 =
          (runSteps (transitionStep st inp).1 rest).1 := by
        simp [runSteps]
      have hsnd : (runSteps st (inp :: rest)).2 =
          (runSteps (transitionStep st inp).1 rest).2 := by
        simp [runSteps, hnone]
      refine ⟨by rw [hsnd]; exact i1, fun e he => i2 e (by rwa [hsnd] at he),
        by rw [hfst, i3, hidx], by rw [hfst]; exact i4, by rw [hfst]; exact i5,
        by rw [hfst]; exact i6, by rw [hfst]; exact i7, by rw [hfst]; exact i8,
        by rw [hfst]; exact i9, by rw [hfst]; exact i10⟩

/-- C8: exactly `H = 30` consecutive transition messages from the start of
a pseudo-episode bump the episode counter exactly once, emit one aggregate
record whose episodic length is `H`, and reset every per-episode
accumulator; the boundary depends only on the step counter (the inputs
carry no environment done signal at all). -/
theorem episode_horizon_boundary (inputs : List StepInput) (st : SessionState)
    (hlen : inputs.length = MAX_STEPS_PER_EPISODE) (hst : st.episode_step = 0) :
    ((runSteps st inputs).2).length = 1 ∧
    (∀ e ∈ (runSteps st inputs).2, e.length = MAX_STEPS_PER_EPISODE) ∧
    (runSteps st inputs).1.episode_idx = st.episode_idx + 1 ∧
    (runSteps st inputs).1.episode_step = 0 ∧
    (runSteps st inputs).1.episode_return = 0 ∧
    (runSteps st inputs).1.episode_q_sum = 0 ∧
    (runSteps st inputs).1.episode_q_count = 0 ∧
    (runSteps st inputs).1.episode_loss_sum = 0 ∧
    (runSteps st inputs).1.episode_loss_count = 0 ∧
    (runSteps st inputs).1.episode_random_count = 0 := by
  apply runSteps_completes_episode
  · intro hnil
    rw [hnil] at hlen
    simp [MAX_STEPS_PER_EPISODE] at hlen
  · omega

/-- C8 witness: thirty identical inputs from a fresh session. -/
theorem episode_horizon_boundary_witness :
    (List.replicate 30 (⟨1, none, 2⟩ : StepInput)).length = MAX_STEPS_PER_EPISODE ∧
    sessionInit.episode_step = 0 ∧
    (runSteps sessionInit (List.replicate 30 ⟨1, none, 2⟩)).1.episode_idx =
      sessionInit.episode_idx + 1 ∧
    ((runSteps sessionInit (List.replicate 30 ⟨1, none, 2⟩)).2).length = 1 :=
  ⟨by simp [MAX_STEPS_PER_EPISODE], rfl,
    (episode_horizon_boundary _ _ (by simp [MAX_STEPS_PER_EPISODE]) rfl).2.2.1,
    (episode_horizon_boundary _ _ (by simp [MAX_STEPS_PER_EPISODE]) rfl).1⟩

end DQN
